import Mathlib

/-!
# `square_array/square.c`: host side of the OpenCL "square" example

A shallow embedding of `main` of `src/square_array/square.c`.

* C `float` / `double` values are modelled by the rational number they denote; every
  arithmetic operation rounds its exact result to the destination format
  (round to nearest, ties to even).
* `main` is a straight line of OpenCL runtime calls between two host loops.  The calls are
  embedded as data (`Call`), in program order, with the arguments the source passes; the
  handles are named after the C variables that hold them.
* The OpenCL runtime and the kernel in `square.cl` are external to `square.c`; their effect
  on memory is given by `exec` and `squareKernel`.
* The error codes the calls write to `err` are never read by `main` and are left out.
-/

namespace SquareArray

/-! ## Preprocessor constants (`square.c`, lines 1-4) -/

/-- Line 1: `#define PROGRAM_FILE "square.cl"`. -/
def PROGRAM_FILE : String := "square.cl"

/-- Line 2: `#define KERNEL_FUNC "square"`. -/
def KERNEL_FUNC : String := "square"

/-- Line 3: `#define MAX_CUS 24` (never referenced by `main`). -/
def MAX_CUS : ℕ := 24

/-- Line 4: `#define WG_SIZE 256`. -/
def WG_SIZE : ℕ := 256

/-- The value of `sizeof(float)`. -/
def sizeof_float : ℕ := 4

/-- The value of `sizeof(int)`. -/
def sizeof_int : ℕ := 4

/-! ## Binary floating point -/

/-- Round a rational to the nearest integer, ties to the even neighbour. -/
def roundNearestEven (q : ℚ) : ℤ :=
  if q - ⌊q⌋ < 1 / 2 then ⌊q⌋
  else if 1 / 2 < q - ⌊q⌋ then ⌊q⌋ + 1
  else if ⌊q⌋ % 2 = 0 then ⌊q⌋ else ⌊q⌋ + 1

/-- An IEEE-754 binary format: number of significand bits (hidden bit included) and the
exponent of the smallest normal number.  The largest exponent is not part of the model: no
value computed by `main` from a 32-bit `int` exceeds `2 ^ 31`. -/
structure FloatFormat where
  precision : ℕ
  emin : ℤ

/-- C `float`. -/
def binary32 : FloatFormat := ⟨24, -126⟩

/-- C `double`. -/
def binary64 : FloatFormat := ⟨53, -1022⟩

/-- Exponent of the unit in the last place of the format at magnitude `|q|`
(clamped at the subnormal spacing). -/
def ulpExp (fmt : FloatFormat) (q : ℚ) : ℤ :=
  max (Int.log 2 |q| - (fmt.precision - 1)) (fmt.emin - (fmt.precision - 1))

/-- Round a rational to the nearest value of the format, ties to even. -/
def roundFloat (fmt : FloatFormat) (q : ℚ) : ℚ :=
  roundNearestEven (q / 2 ^ ulpExp fmt q) * 2 ^ ulpExp fmt q

/-! ## Work sizes (`square.c`, lines 89-92) -/

/-- Line 90: `local_size = WG_SIZE;`. -/
def local_size : ℕ := WG_SIZE

/-- Line 92: `global_size = ceil(ARRAY_SIZE/(float)local_size)*local_size;`

* `(float)local_size` converts the `size_t` to `float`;
* `ARRAY_SIZE` (an `int`) is converted to `float` for the division, which is a `float` division;
* `ceil` takes and returns a `double` (the promotion of a `float` is exact, and so is `ceil`);
* the second `local_size` is converted to `double` for the `double` multiplication;
* the assignment converts the `double` to the 64-bit `size_t` by truncation. -/
def global_size (ARRAY_SIZE : ℕ) (local_size : ℕ) : ℕ :=
  let n : ℚ := roundFloat binary32 ARRAY_SIZE
  let l : ℚ := roundFloat binary32 local_size
  let quot : ℚ := roundFloat binary32 (n / l)
  let c : ℚ := (⌈quot⌉ : ℤ)
  let prod : ℚ := roundFloat binary64 (c * roundFloat binary64 local_size)
  ⌊prod⌋.toNat % 2 ^ 64

/-- The pure-integer round-up `((N + L - 1) / L) * L` with truncating division, the
expression `global_size` is compared with. -/
def roundUpInt (N L : ℕ) : ℕ := (N + L - 1) / L * L

/-! ## Host memory -/

/-- One `float` object in memory: `none` is an indeterminate value (never written). -/
abbrev Cell := Option ℚ

/-- The block returned by `malloc(bytes)`, seen as an array of `float`: uninitialised. -/
def malloc (bytes : ℕ) : List Cell := List.replicate (bytes / sizeof_float) none

/-- Lines 32-34: `for(i=0; i<ARRAY_SIZE; i++) { data[i] = 1.0f*i; }`, from loop counter `i`
on.  `1.0f*i` converts `i` to `float` and multiplies in `float`.  The second component logs
the indices stored to, in order.  (`i` is a `cl_int`; `i++` cannot overflow since
`i < ARRAY_SIZE`.) -/
def fillLoop (ARRAY_SIZE : ℕ) (i : ℕ) (data : List Cell) (stores : List ℕ) :
    List Cell × List ℕ :=
  if i < ARRAY_SIZE then
    fillLoop ARRAY_SIZE (i + 1)
      (data.set i (some (roundFloat binary32 (1 * roundFloat binary32 i)))) (stores ++ [i])
  else (data, stores)
termination_by ARRAY_SIZE - i

/-- Lines 129-131: `for (i=0; i<ARRAY_SIZE; i++) { printf("%f ", output[i]); }`, from loop
counter `i` on.  The console is the list of the values handed to `printf`, one entry per
`"%f "` item. -/
def printLoop (ARRAY_SIZE : ℕ) (i : ℕ) (output : List Cell) (stdout : List Cell) : List Cell :=
  if i < ARRAY_SIZE then
    printLoop ARRAY_SIZE (i + 1) output (stdout ++ [output.getD i none])
  else stdout
termination_by ARRAY_SIZE - i

/-! ## OpenCL runtime calls

`sizeof(cl_mem)` and `sizeof(output)` (a `float*`) are pointer sizes; the pointer size is the
parameter `ptr` of the definitions below (8 on an LP64 host). -/

/-- The handle variables of `main` (lines 12-16 and 25). -/
inductive Handle
  | device | context | program | kernel | queue | input_buffer | out_buffer
  deriving DecidableEq, Repr, Fintype

/-- The host arrays of `main` (line 23). -/
inductive HostPtr
  | data | output
  deriving DecidableEq, Repr

/-- The `cl_mem_flags` bits used by `main`. -/
inductive MemFlag
  | CL_MEM_READ_ONLY | CL_MEM_READ_WRITE | CL_MEM_COPY_HOST_PTR
  deriving DecidableEq, Repr

/-- The object a kernel argument points to: a memory-object handle or an `int`. -/
inductive ArgVal
  | mem (h : Handle)
  | int (v : ℤ)
  deriving DecidableEq, Repr

/-- A call made by `main`, with the arguments that are not `NULL`/`0` placeholders.  For a
creating call, `ret` is the variable the returned handle is assigned to. -/
inductive Call
  | create_device (ret : Handle)
  | clCreateContext (ret : Handle) (num_devices : ℕ) (dev : Handle)
  | build_program (ret : Handle) (ctx dev : Handle) (filename : String)
  | clCreateBuffer (ret : Handle) (ctx : Handle) (flags : List MemFlag) (size : ℕ)
      (host_ptr : HostPtr)
  | clCreateCommandQueue (ret : Handle) (ctx dev : Handle) (properties : ℕ)
  | clCreateKernel (ret : Handle) (prog : Handle) (kernel_name : String)
  | clSetKernelArg (k : Handle) (arg_index : ℕ) (arg_size : ℕ) (arg_value : ArgVal)
  | clEnqueueNDRangeKernel (q k : Handle) (work_dim : ℕ) (global_work_size : ℕ)
      (local_work_size : ℕ)
  | clFinish (q : Handle)
  | clEnqueueReadBuffer (q buf : Handle) (blocking : Bool) (offset size : ℕ) (dst : HostPtr)
  | clReleaseKernel (k : Handle)
  | clReleaseMemObject (m : Handle)
  | clReleaseCommandQueue (q : Handle)
  | clReleaseProgram (p : Handle)
  | clReleaseContext (c : Handle)
  deriving DecidableEq, Repr

/-- Lines 41-126: the runtime calls up to the readback, in program order. -/
def setupCalls (ptr : ℕ) (ARRAY_SIZE : ℕ) : List Call :=
  [ .create_device .device,
    .clCreateContext .context 1 .device,
    .build_program .program .context .device PROGRAM_FILE,
    .clCreateBuffer .input_buffer .context [.CL_MEM_READ_ONLY, .CL_MEM_COPY_HOST_PTR]
      sizeof_float .data,
    .clCreateBuffer .out_buffer .context [.CL_MEM_READ_WRITE, .CL_MEM_COPY_HOST_PTR]
      sizeof_float .output,
    .clCreateCommandQueue .queue .context .device 0,
    .clCreateKernel .kernel .program KERNEL_FUNC,
    .clSetKernelArg .kernel 0 ptr (.mem .input_buffer),
    .clSetKernelArg .kernel 1 ptr (.mem .out_buffer),
    .clSetKernelArg .kernel 2 sizeof_int (.int ARRAY_SIZE),
    .clEnqueueNDRangeKernel .queue .kernel 1 (global_size ARRAY_SIZE local_size) local_size,
    .clFinish .queue,
    .clEnqueueReadBuffer .queue .out_buffer true 0 ptr .output ]

/-- Lines 134-139: the release calls, in program order. -/
def releaseCalls : List Call :=
  [ .clReleaseKernel .kernel,
    .clReleaseMemObject .out_buffer,
    .clReleaseMemObject .input_buffer,
    .clReleaseCommandQueue .queue,
    .clReleaseProgram .program,
    .clReleaseContext .context ]

/-- The accelerator object a call creates, if any.  `create_device` looks a device id up; a
device id is not created and has no release call. -/
def Call.created : Call → Option Handle
  | .clCreateContext ret _ _ => some ret
  | .build_program ret _ _ _ => some ret
  | .clCreateBuffer ret _ _ _ _ => some ret
  | .clCreateCommandQueue ret _ _ _ => some ret
  | .clCreateKernel ret _ _ => some ret
  | _ => none

/-- The object a call releases, if any. -/
def Call.released : Call → Option Handle
  | .clReleaseKernel h => some h
  | .clReleaseMemObject h => some h
  | .clReleaseCommandQueue h => some h
  | .clReleaseProgram h => some h
  | .clReleaseContext h => some h
  | _ => none

/-- The handles a call passes to the runtime. -/
def Call.uses : Call → List Handle
  | .create_device _ => []
  | .clCreateContext _ _ dev => [dev]
  | .build_program _ ctx dev _ => [ctx, dev]
  | .clCreateBuffer _ ctx _ _ _ => [ctx]
  | .clCreateCommandQueue _ ctx dev _ => [ctx, dev]
  | .clCreateKernel _ prog _ => [prog]
  | .clSetKernelArg k _ _ (.mem h) => [k, h]
  | .clSetKernelArg k _ _ (.int _) => [k]
  | .clEnqueueNDRangeKernel q k _ _ _ => [q, k]
  | .clFinish q => [q]
  | .clEnqueueReadBuffer q buf _ _ _ _ => [q, buf]
  | .clReleaseKernel h => [h]
  | .clReleaseMemObject h => [h]
  | .clReleaseCommandQueue h => [h]
  | .clReleaseProgram h => [h]
  | .clReleaseContext h => [h]

/-- The objects created by a sequence of calls, in order. -/
def createdSeq (cs : List Call) : List Handle := cs.filterMap Call.created

/-- The objects released by a sequence of calls, in order. -/
def releasedSeq (cs : List Call) : List Handle := cs.filterMap Call.released

/-- Byte sizes passed to `clCreateBuffer`, in order. -/
def bufferSizes (cs : List Call) : List ℕ :=
  cs.filterMap fun c => match c with
    | .clCreateBuffer _ _ _ size _ => some size
    | _ => none

/-- Byte counts passed to `clEnqueueReadBuffer`, in order. -/
def readbackSizes (cs : List Call) : List ℕ :=
  cs.filterMap fun c => match c with
    | .clEnqueueReadBuffer _ _ _ _ size _ => some size
    | _ => none

/-- The `(arg_index, arg_size, arg_value)` triples passed to `clSetKernelArg`, in order. -/
def kernelArgs (cs : List Call) : List (ℕ × ℕ × ArgVal) :=
  cs.filterMap fun c => match c with
    | .clSetKernelArg _ i sz v => some (i, sz, v)
    | _ => none

/-- The `(global_work_size, local_work_size)` pairs of the dispatches, in order. -/
def dispatches (cs : List Call) : List (ℕ × ℕ) :=
  cs.filterMap fun c => match c with
    | .clEnqueueNDRangeKernel _ _ _ g l => some (g, l)
    | _ => none

/-- Whether a call is a `clSetKernelArg`. -/
def Call.isSetArg : Call → Bool
  | .clSetKernelArg _ _ _ _ => true
  | _ => false

/-- Whether a call is a kernel dispatch. -/
def Call.isDispatch : Call → Bool
  | .clEnqueueNDRangeKernel _ _ _ _ _ => true
  | _ => false

/-! ## Runtime effect on memory -/

/-- Memory as `main` and the device see it. -/
structure World where
  /-- Host array `data`. -/
  data : List Cell
  /-- Host array `output`. -/
  output : List Cell
  /-- Contents of the device memory objects. -/
  mem : Handle → List Cell
  /-- Kernel arguments bound so far, by position. -/
  args : ℕ → Option ArgVal
  /-- Console: the values printed so far. -/
  stdout : List Cell
  /-- Runtime calls made so far. -/
  trace : List Call

/-- The host array a pointer designates. -/
def World.host (w : World) : HostPtr → List Cell
  | .data => w.data
  | .output => w.output

/-- The first `count` cells at `src`; a cell beyond the end of `src` is indeterminate. -/
def copyCells (src : List Cell) (start count : ℕ) : List Cell :=
  (List.range count).map fun i => src.getD (start + i) none

/-- Modelled from the spec: the kernel `square` of `square.cl`, which is not part of
`square.c`.  Work-item `i` of the `global` launched writes `in[i]*in[i]` (a `float` product)
to `out[i]` when `i` is below the element count and inside both device buffers. -/
def squareKernel (inp out : List Cell) (n : ℤ) (global : ℕ) : List Cell :=
  (List.range out.length).map fun i =>
    if i < global ∧ (i : ℤ) < n ∧ i < inp.length then
      (inp.getD i none).map fun x => roundFloat binary32 (x * x)
    else out.getD i none

/-- Modelled from the spec: the effect of one OpenCL runtime call (the runtime is external).
Buffer creation with `CL_MEM_COPY_HOST_PTR` and readback copy exactly the requested number of
bytes (whole `float` cells); a dispatch runs `squareKernel` on the bound arguments; the other
calls leave memory alone.  Every call is appended to the trace. -/
def exec (w : World) (c : Call) : World :=
  let w := { w with trace := w.trace ++ [c] }
  match c with
  | .clCreateBuffer ret _ flags size host_ptr =>
      if MemFlag.CL_MEM_COPY_HOST_PTR ∈ flags then
        { w with
          mem := Function.update w.mem ret (copyCells (w.host host_ptr) 0 (size / sizeof_float)) }
      else
        { w with mem := Function.update w.mem ret (List.replicate (size / sizeof_float) none) }
  | .clSetKernelArg _ i _ v => { w with args := Function.update w.args i (some v) }
  | .clEnqueueNDRangeKernel _ _ _ g _ =>
      match w.args 0, w.args 1, w.args 2 with
      | some (.mem a), some (.mem b), some (.int n) =>
          { w with mem := Function.update w.mem b (squareKernel (w.mem a) (w.mem b) n g) }
      | _, _, _ => w
  | .clEnqueueReadBuffer _ buf _ offset size dst =>
      let got := copyCells (w.mem buf) (offset / sizeof_float) (size / sizeof_float)
      match dst with
      | .data => { w with data := got ++ w.data.drop got.length }
      | .output => { w with output := got ++ w.output.drop got.length }
  | _ => w

/-- The whole of `main` (lines 9-141) for a given `ARRAY_SIZE` (line 18 sets it to 1000). -/
def main (ptr : ℕ) (ARRAY_SIZE : ℕ) : World :=
  let data := malloc (ARRAY_SIZE * sizeof_float)
  let output := malloc (ARRAY_SIZE * sizeof_float)
  let filled := fillLoop ARRAY_SIZE 0 data []
  let w0 : World := ⟨filled.1, output, fun _ => [], fun _ => none, [], []⟩
  let w1 := (setupCalls ptr ARRAY_SIZE).foldl exec w0
  let w2 := { w1 with stdout := printLoop ARRAY_SIZE 0 w1.output w1.stdout }
  releaseCalls.foldl exec w2

/-! ## Rounding: exactness and idempotence -/

theorem roundNearestEven_intCast (z : ℤ) : roundNearestEven (z : ℚ) = z := by
  simp [roundNearestEven]

theorem roundNearestEven_cases (q : ℚ) :
    roundNearestEven q = ⌊q⌋ ∨ roundNearestEven q = ⌊q⌋ + 1 := by
  unfold roundNearestEven
  split_ifs <;> simp

theorem abs_roundNearestEven_le (q : ℚ) (B : ℤ) (h : |q| < B) : |roundNearestEven q| ≤ B := by
  have h1 : -(B : ℚ) < q := (abs_lt.mp h).1
  have h2 : q < B := (abs_lt.mp h).2
  have hf1 : -B ≤ ⌊q⌋ := Int.le_floor.mpr (by push_cast; exact h1.le)
  have hf2 : ⌊q⌋ < B := Int.floor_lt.mpr h2
  rw [abs_le]
  rcases roundNearestEven_cases q with h | h <;> rw [h] <;> constructor <;> omega

theorem ulpExp_le_of_lt (fmt : FloatFormat) (q : ℚ) (e : ℤ) (hq : q ≠ 0)
    (hlt : |q| < 2 ^ (fmt.precision + e : ℤ))
    (he : fmt.emin - (fmt.precision - 1) ≤ e) : ulpExp fmt q ≤ e := by
  unfold ulpExp
  apply max_le _ he
  have hpos : 0 < |q| := abs_pos.mpr hq
  have h1 : (2 : ℚ) ^ Int.log 2 |q| ≤ |q| := Int.zpow_log_le_self (by norm_num) hpos
  have h2 : (2 : ℚ) ^ Int.log 2 |q| < 2 ^ (fmt.precision + e : ℤ) := lt_of_le_of_lt h1 hlt
  have h3 : Int.log 2 |q| < fmt.precision + e := (zpow_lt_zpow_iff_right₀ (by norm_num)).mp h2
  omega

/-- A value `m * 2 ^ e` whose significand `m` fits the precision is left unchanged. -/
theorem roundFloat_exact (fmt : FloatFormat) (m e : ℤ) (hm : |m| < 2 ^ fmt.precision)
    (he : fmt.emin - (fmt.precision - 1) ≤ e) :
    roundFloat fmt (m * 2 ^ e) = m * 2 ^ e := by
  by_cases h0 : m = 0
  · subst h0
    simp [roundFloat, roundNearestEven]
  have h2e : (0 : ℚ) < 2 ^ e := zpow_pos (by norm_num) e
  have hq : (m : ℚ) * 2 ^ e ≠ 0 := mul_ne_zero (by exact_mod_cast h0) h2e.ne'
  have hlt : |(m : ℚ) * 2 ^ e| < 2 ^ (fmt.precision + e : ℤ) := by
    rw [abs_mul, abs_of_pos h2e, zpow_add₀ (by norm_num)]
    apply mul_lt_mul_of_pos_right _ h2e
    rw [zpow_natCast]
    exact_mod_cast hm
  have hu := ulpExp_le_of_lt fmt _ e hq hlt he
  unfold roundFloat
  generalize ulpExp fmt (m * 2 ^ e) = u at hu
  obtain ⟨d, rfl⟩ : ∃ d : ℕ, e = u + d := ⟨(e - u).toNat, by omega⟩
  have h2u : (2 : ℚ) ^ u ≠ 0 := (zpow_pos (by norm_num) u).ne'
  have hcast : (m : ℚ) * 2 ^ (u + (d : ℤ)) / 2 ^ u = ((m * 2 ^ d : ℤ) : ℚ) := by
    rw [zpow_add₀ (by norm_num), zpow_natCast]
    field_simp
    ring
  rw [hcast, roundNearestEven_intCast, zpow_add₀ (by norm_num), zpow_natCast]
  push_cast
  ring

theorem abs_div_ulp_lt (fmt : FloatFormat) (q : ℚ) :
    |q / 2 ^ ulpExp fmt q| < ((2 ^ fmt.precision : ℤ) : ℚ) := by
  have h2u : (0 : ℚ) < 2 ^ ulpExp fmt q := zpow_pos (by norm_num) _
  rw [abs_div, abs_of_pos h2u, div_lt_iff₀ h2u]
  push_cast
  rw [← zpow_natCast, ← zpow_add₀ (by norm_num)]
  have h1 : |q| < 2 ^ (Int.log 2 |q| + 1) := Int.lt_zpow_succ_log_self (by norm_num) _
  refine lt_of_lt_of_le h1 (zpow_le_zpow_right₀ (by norm_num) ?_)
  have : Int.log 2 |q| - (fmt.precision - 1) ≤ ulpExp fmt q := le_max_left _ _
  omega

/-- Rounding a value of the format again changes nothing. -/
theorem roundFloat_idem (fmt : FloatFormat) (hp : 0 < fmt.precision) (q : ℚ) :
    roundFloat fmt (roundFloat fmt q) = roundFloat fmt q := by
  have hb := abs_roundNearestEven_le _ _ (abs_div_ulp_lt fmt q)
  have hu : fmt.emin - (fmt.precision - 1) ≤ ulpExp fmt q := le_max_right _ _
  unfold roundFloat at *
  generalize ulpExp fmt q = u at *
  generalize roundNearestEven (q / 2 ^ u) = z at *
  rcases lt_or_eq_of_le hb with hlt | heq
  · exact roundFloat_exact fmt z u hlt hu
  · have hone : |(1 : ℤ)| < 2 ^ fmt.precision := by
      rw [abs_one]; exact one_lt_pow₀ (by norm_num) hp.ne'
    have hmone : |(-1 : ℤ)| < 2 ^ fmt.precision := by rw [abs_neg]; exact hone
    have key : ∀ s : ℤ, |s| < 2 ^ fmt.precision → z = s * 2 ^ fmt.precision →
        roundFloat fmt (z * 2 ^ u) = z * 2 ^ u := by
      intro s hs hz
      have := roundFloat_exact fmt s (fmt.precision + u) hs (by omega)
      have e : (z : ℚ) * 2 ^ u = s * 2 ^ (fmt.precision + u : ℤ) := by
        rw [hz, zpow_add₀ (by norm_num), zpow_natCast]; push_cast; ring
      rw [e]; exact this
    unfold roundFloat at key
    rcases abs_choice z with hz | hz
    · exact key 1 hone (by rw [one_mul, ← heq, hz])
    · exact key (-1) hmone (by rw [← heq, hz]; ring)

theorem roundFloat_nat_mul_zpow (fmt : FloatFormat) (n : ℕ) (e : ℤ)
    (hn : n < 2 ^ fmt.precision) (he : fmt.emin - (fmt.precision - 1) ≤ e) :
    roundFloat fmt ((n : ℚ) * 2 ^ e) = (n : ℚ) * 2 ^ e := by
  have := roundFloat_exact fmt (n : ℤ) e (by rw [Nat.abs_cast]; exact_mod_cast hn) he
  simpa using this

/-- Every `int` up to `2 ^ 24` converts to `float` exactly. -/
theorem roundFloat_binary32_nat (n : ℕ) (hn : n ≤ 2 ^ 24) :
    roundFloat binary32 (n : ℚ) = n := by
  rcases Nat.lt_or_ge n (2 ^ 24) with h | h
  · have := roundFloat_nat_mul_zpow binary32 n 0 h (by norm_num [binary32])
    simpa using this
  · have hn' : n = 2 ^ 24 := le_antisymm hn h
    have := roundFloat_nat_mul_zpow binary32 1 24 (by norm_num [binary32]) (by norm_num [binary32])
    subst hn'
    norm_num at this ⊢
    exact this

theorem roundFloat_binary32_nat_div (n : ℕ) (hn : n ≤ 2 ^ 24) :
    roundFloat binary32 ((n : ℚ) / 256) = (n : ℚ) / 256 := by
  rcases Nat.lt_or_ge n (2 ^ 24) with h | h
  · have := roundFloat_nat_mul_zpow binary32 n (-8) h (by norm_num [binary32])
    have e : (n : ℚ) * 2 ^ (-8 : ℤ) = (n : ℚ) / 256 := by
      rw [zpow_neg, div_eq_mul_inv]; norm_num
    rwa [e] at this
  · have hn' : n = 2 ^ 24 := le_antisymm hn h
    have := roundFloat_nat_mul_zpow binary32 1 16 (by norm_num [binary32]) (by norm_num [binary32])
    subst hn'
    norm_num at this ⊢
    exact this

theorem roundFloat_binary64_nat (n : ℕ) (hn : n < 2 ^ 53) :
    roundFloat binary64 (n : ℚ) = n := by
  have := roundFloat_nat_mul_zpow binary64 n 0 hn (by norm_num [binary64])
  simpa using this

theorem ceil_nat_div (n : ℕ) : ⌈(n : ℚ) / 256⌉ = (((n + 255) / 256 : ℕ) : ℤ) := by
  rw [Int.ceil_eq_iff]
  have h1 : 256 * ((n + 255) / 256) ≤ n + 255 := Nat.mul_div_le _ _
  have h2 : n + 255 < 256 * ((n + 255) / 256) + 256 := by omega
  generalize (n + 255) / 256 = c at h1 h2
  have h1' : (256 : ℚ) * c ≤ n + 255 := by exact_mod_cast h1
  have h3 : (n : ℚ) + 255 + 1 ≤ 256 * c + 256 := by exact_mod_cast h2
  push_cast
  constructor
  · rw [lt_div_iff₀ (by norm_num)]; linarith
  · rw [div_le_iff₀ (by norm_num)]; linarith

/-- The value of the product once the conversion of `ARRAY_SIZE` to `float` is known:
if `(float)ARRAY_SIZE` is the integer `f ≤ 2 ^ 31`, then `global_size` is `f` rounded up to a
multiple of 256. -/
theorem global_size_of_float (n f : ℕ) (hf : roundFloat binary32 (n : ℚ) = f)
    (hq : roundFloat binary32 ((f : ℚ) / 256) = (f : ℚ) / 256) (hb : f ≤ 2 ^ 31) :
    global_size n 256 = (f + 255) / 256 * 256 := by
  have h256 : roundFloat binary32 ((256 : ℕ) : ℚ) = ((256 : ℕ) : ℚ) :=
    roundFloat_binary32_nat 256 (by norm_num)
  have h256d : roundFloat binary64 ((256 : ℕ) : ℚ) = ((256 : ℕ) : ℚ) :=
    roundFloat_binary64_nat 256 (by norm_num)
  have hprod : roundFloat binary64 ((((f + 255) / 256 * 256 : ℕ)) : ℚ)
      = (((f + 255) / 256 * 256 : ℕ) : ℚ) :=
    roundFloat_binary64_nat _ (by omega)
  unfold global_size
  simp only [hf, h256, h256d]
  rw [show (((256 : ℕ) : ℚ)) = 256 by norm_num, hq, ceil_nat_div]
  rw [show (((((f + 255) / 256 : ℕ) : ℤ) : ℚ)) * 256 = (((f + 255) / 256 * 256 : ℕ) : ℚ) by
    rw [Int.cast_natCast, Nat.cast_mul, Nat.cast_ofNat], hprod]
  rw [Int.floor_natCast, Int.toNat_natCast]
  omega

/-- In the range where the conversion to `float` is exact, `global_size` is the integer
round-up to a multiple of 256. -/
theorem global_size_eq (n : ℕ) (hn : n ≤ 2 ^ 24) :
    global_size n 256 = (n + 255) / 256 * 256 :=
  global_size_of_float n n (roundFloat_binary32_nat n hn) (roundFloat_binary32_nat_div n hn)
    (by omega)


/-! ## The conversion of `2 ^ 24 + 1` -/

theorem exec_trace (w : World) (c : Call) : (exec w c).trace = w.trace ++ [c] := by
  unfold exec
  cases c <;> simp only []
  · split <;> rfl
  · split <;> rfl
  · split <;> rfl

theorem foldl_exec_trace (cs : List Call) (w : World) :
    (cs.foldl exec w).trace = w.trace ++ cs := by
  induction cs generalizing w with
  | nil => simp
  | cons c cs ih => simp [ih, exec_trace]

theorem exec_stdout (w : World) (c : Call) : (exec w c).stdout = w.stdout := by
  unfold exec
  cases c <;> simp only []
  · split <;> rfl
  · split <;> rfl
  · split <;> rfl

theorem foldl_exec_stdout (cs : List Call) (w : World) :
    (cs.foldl exec w).stdout = w.stdout := by
  induction cs generalizing w with
  | nil => simp
  | cons c cs ih => simp [ih, exec_stdout]

theorem main_trace (ptr N : ℕ) : (main ptr N).trace = setupCalls ptr N ++ releaseCalls := by
  simp [main, foldl_exec_trace]


theorem fillLoop_stores (N : ℕ) : ∀ (k i : ℕ) (data : List Cell) (stores : List ℕ),
    N - i = k → (fillLoop N i data stores).2 = stores ++ List.range' i (N - i) := by
  intro k
  induction k with
  | zero =>
    intro i data stores hk
    rw [fillLoop, if_neg (by omega)]
    simp [hk]
  | succ k ih =>
    intro i data stores hk
    rw [fillLoop, if_pos (by omega), ih (i + 1) _ _ (by omega)]
    have : N - i = (N - (i + 1)) + 1 := by omega
    rw [this, List.range'_succ]
    simp

theorem fillLoop_length (N : ℕ) : ∀ (k i : ℕ) (data : List Cell) (stores : List ℕ),
    N - i = k → (fillLoop N i data stores).1.length = data.length := by
  intro k
  induction k with
  | zero =>
    intro i data stores hk
    rw [fillLoop, if_neg (by omega)]
  | succ k ih =>
    intro i data stores hk
    rw [fillLoop, if_pos (by omega), ih (i + 1) _ _ (by omega)]
    simp

theorem fillLoop_getElem? (N : ℕ) : ∀ (k i : ℕ) (data : List Cell) (stores : List ℕ) (j : ℕ),
    N - i = k → (fillLoop N i data stores).1[j]? =
      if i ≤ j ∧ j < N ∧ j < data.length then
        some (some (roundFloat binary32 (1 * roundFloat binary32 j)))
      else data[j]? := by
  intro k
  induction k with
  | zero =>
    intro i data stores j hk
    rw [fillLoop, if_neg (by omega), if_neg (by omega)]
  | succ k ih =>
    intro i data stores j hk
    rw [fillLoop, if_pos (by omega), ih (i + 1) _ _ j (by omega)]
    simp only [List.length_set, List.getElem?_set]
    by_cases hij : i = j
    · subst hij
      by_cases hl : i < data.length
      · simp [hl]
        rw [if_pos (by omega)]
      · simp [hl]
        omega
    · by_cases h1 : i + 1 ≤ j ∧ j < N ∧ j < data.length
      · rw [if_pos h1, if_pos (by omega)]
      · rw [if_neg h1, if_neg hij, if_neg (by omega)]

theorem printLoop_eq (N : ℕ) : ∀ (k i : ℕ) (output stdout : List Cell),
    N - i = k → printLoop N i output stdout =
      stdout ++ (List.range' i (N - i)).map fun j => output.getD j none := by
  intro k
  induction k with
  | zero =>
    intro i output stdout hk
    rw [printLoop, if_neg (by omega)]
    simp [hk]
  | succ k ih =>
    intro i output stdout hk
    rw [printLoop, if_pos (by omega), ih (i + 1) _ _ (by omega)]
    have : N - i = (N - (i + 1)) + 1 := by omega
    rw [this, List.range'_succ]
    simp

theorem fillLoop_data (N : ℕ) :
    (fillLoop N 0 (malloc (N * sizeof_float)) []).1 =
      (List.range N).map fun (i : ℕ) => some (roundFloat binary32 (i : ℚ)) := by
  have hlen : (malloc (N * sizeof_float)).length = N := by simp [malloc, sizeof_float]
  apply List.ext_getElem?
  intro j
  rw [fillLoop_getElem? N N 0 _ _ j rfl, hlen]
  by_cases hj : j < N
  · rw [if_pos ⟨Nat.zero_le _, hj, hj⟩]
    simp [hj, roundFloat_idem binary32 (by norm_num [binary32])]
  · rw [if_neg (by omega)]
    have hj' : N ≤ j := by omega
    rw [List.getElem?_eq_none (by rw [hlen]; exact hj'),
      List.getElem?_eq_none (by simpa using hj')]


theorem setup_output (ptr N : ℕ) (w0 : World) :
    ((setupCalls ptr N).foldl exec w0).output =
      copyCells (squareKernel (copyCells w0.data 0 1) (copyCells w0.output 0 1) N
        (global_size N local_size)) 0 (ptr / sizeof_float) ++
        w0.output.drop (ptr / sizeof_float) := by
  simp [setupCalls, exec, World.host, sizeof_float, copyCells]

theorem main_output (ptr N : ℕ) :
    (main ptr N).output =
      copyCells (squareKernel
          (copyCells (fillLoop N 0 (malloc (N * sizeof_float)) []).1 0 1)
          (copyCells (malloc (N * sizeof_float)) 0 1) N (global_size N local_size))
        0 (ptr / sizeof_float) ++ (malloc (N * sizeof_float)).drop (ptr / sizeof_float) := by
  unfold main
  simp only [releaseCalls, List.foldl_cons, List.foldl_nil]
  simp only [exec]
  rw [setup_output]

theorem main_stdout (ptr N : ℕ) :
    (main ptr N).stdout = (List.range N).map fun j => (main ptr N).output.getD j none := by
  have ho : (main ptr N).output = ((setupCalls ptr N).foldl exec
      ⟨(fillLoop N 0 (malloc (N * sizeof_float)) []).1, malloc (N * sizeof_float),
        fun _ => [], fun _ => none, [], []⟩).output := by
    unfold main
    simp only [releaseCalls, List.foldl_cons, List.foldl_nil]
    simp only [exec]
  rw [ho]
  unfold main
  simp only [foldl_exec_stdout]
  rw [printLoop_eq N N 0 _ _ rfl, List.range_eq_range']
  simp

theorem createdSeq_main (ptr N : ℕ) :
    createdSeq (main ptr N).trace =
      [.context, .program, .input_buffer, .out_buffer, .queue, .kernel] := by
  rw [main_trace]; rfl

theorem releasedSeq_main (ptr N : ℕ) :
    releasedSeq (main ptr N).trace =
      [.kernel, .out_buffer, .input_buffer, .queue, .program, .context] := by
  rw [main_trace]; rfl

theorem kernelArgs_main (ptr N : ℕ) :
    kernelArgs (main ptr N).trace =
      [(0, ptr, .mem .input_buffer), (1, ptr, .mem .out_buffer), (2, sizeof_int, .int N)] := by
  rw [main_trace]; rfl

theorem dispatches_main (ptr N : ℕ) :
    dispatches (main ptr N).trace = [(global_size N local_size, local_size)] := by
  rw [main_trace]; rfl

theorem bufferSizes_main (ptr N : ℕ) :
    bufferSizes (main ptr N).trace = [sizeof_float, sizeof_float] := by
  rw [main_trace]; rfl

theorem readbackSizes_main (ptr N : ℕ) : readbackSizes (main ptr N).trace = [ptr] := by
  rw [main_trace]; rfl


theorem setup_mem_out_buffer (ptr N : ℕ) (w0 : World) :
    ((setupCalls ptr N).foldl exec w0).mem Handle.out_buffer =
      squareKernel (copyCells w0.data 0 1) (copyCells w0.output 0 1) N
        (global_size N local_size) := by
  simp [setupCalls, exec, World.host, sizeof_float, copyCells]

theorem main_mem_out_buffer (ptr N : ℕ) :
    (main ptr N).mem Handle.out_buffer =
      squareKernel (copyCells (fillLoop N 0 (malloc (N * sizeof_float)) []).1 0 1)
        (copyCells (malloc (N * sizeof_float)) 0 1) N (global_size N local_size) := by
  unfold main
  simp only [releaseCalls, List.foldl_cons, List.foldl_nil]
  simp only [exec]
  rw [setup_mem_out_buffer]

theorem roundFloat_binary32_zero : roundFloat binary32 0 = 0 := by
  simpa using roundFloat_binary32_nat 0 (by norm_num)

theorem copyCells_one (l : List Cell) : copyCells l 0 1 = [l.getD 0 none] := by
  simp [copyCells, show List.range 1 = [0] from rfl]

theorem length_copyCells (l : List Cell) (a k : ℕ) : (copyCells l a k).length = k := by
  simp [copyCells]

theorem length_squareKernel (inp out : List Cell) (n : ℤ) (g : ℕ) :
    (squareKernel inp out n g).length = out.length := by
  simp [squareKernel]

theorem fillLoop_head (N : ℕ) (hN : 0 < N) :
    (fillLoop N 0 (malloc (N * sizeof_float)) []).1.getD 0 none = some 0 := by
  rw [fillLoop_data, List.getD_eq_getElem?_getD, List.getElem?_map, List.getElem?_range hN]
  simp [roundFloat_binary32_zero]

/-- The device output buffer after the dispatch holds one cell, the square of `data[0]`. -/
theorem main_mem_out_buffer_eq (ptr N : ℕ) (hN : 0 < N) (hg : 0 < global_size N local_size) :
    (main ptr N).mem Handle.out_buffer = [some 0] := by
  rw [main_mem_out_buffer, copyCells_one, copyCells_one, fillLoop_head N hN]
  simp [squareKernel, hN, hg, roundFloat_binary32_zero, show List.range 1 = [0] from rfl]

theorem main_output_eq (ptr N : ℕ) :
    (main ptr N).output = copyCells ((main ptr N).mem Handle.out_buffer) 0 (ptr / sizeof_float)
      ++ (malloc (N * sizeof_float)).drop (ptr / sizeof_float) := by
  rw [main_output, main_mem_out_buffer]

theorem main_output_length (ptr N : ℕ) :
    (main ptr N).output.length = max (ptr / sizeof_float) N := by
  rw [main_output_eq, List.length_append, length_copyCells, List.length_drop]
  simp only [malloc, List.length_replicate, sizeof_float]
  omega

/-- Whatever the pointer size and the element count, no cell of `output` beyond the first
is determined after the readback. -/
theorem main_output_indeterminate (ptr N i : ℕ) (hi : 1 ≤ i) :
    (main ptr N).output.getD i none = none := by
  have hlen : ((main ptr N).mem Handle.out_buffer).length = 1 := by
    rw [main_mem_out_buffer, length_squareKernel, length_copyCells]
  rw [main_output_eq, List.getD_eq_getElem?_getD]
  by_cases h : i < ptr / sizeof_float
  · rw [List.getElem?_append_left (by rw [length_copyCells]; exact h)]
    simp only [copyCells, List.getElem?_map, List.getElem?_range h, Option.map_some',
      Option.getD_some, Nat.zero_add]
    rw [List.getD_eq_getElem?_getD, List.getElem?_eq_none (by omega)]
    rfl
  · rw [List.getElem?_append_right (by rw [length_copyCells]; omega)]
    simp only [malloc, List.getElem?_drop, List.getElem?_replicate]
    split <;> rfl

theorem main_output_zero (ptr N : ℕ) (hp : sizeof_float ≤ ptr) (hN : 0 < N)
    (hg : 0 < global_size N local_size) : (main ptr N).output.getD 0 none = some 0 := by
  have h : 0 < ptr / sizeof_float := Nat.div_pos hp (by norm_num [sizeof_float])
  rw [main_output_eq, main_mem_out_buffer_eq ptr N hN hg, List.getD_eq_getElem?_getD,
    List.getElem?_append_left (by rw [length_copyCells]; exact h)]
  simp only [copyCells, List.getElem?_map, List.getElem?_range h]
  rfl

theorem setup_data (ptr N : ℕ) (w0 : World) :
    ((setupCalls ptr N).foldl exec w0).data = w0.data := by
  simp [setupCalls, exec]

theorem main_data (ptr N : ℕ) :
    (main ptr N).data = (fillLoop N 0 (malloc (N * sizeof_float)) []).1 := by
  unfold main
  simp only [releaseCalls, List.foldl_cons, List.foldl_nil]
  simp only [exec]
  rw [setup_data]

/-! ## The claims -/

/-- C2: with `ARRAY_SIZE = 1000` and `WG_SIZE = 256`, `main` computes `local_size = 256` and
`global_size = 1024`, its one dispatch is over 1024 work-items in groups of 256, that is
`1024 / 256 = 4` work-groups, 24 work-items beyond the 1000 elements. -/
theorem C2_scenario_1000 (ptr : ℕ) :
    local_size = 256 ∧ global_size 1000 local_size = 1024 ∧
      dispatches (main ptr 1000).trace = [(1024, 256)] ∧
      global_size 1000 local_size / local_size = 4 ∧
      global_size 1000 local_size - 1000 = 24 := by
  have h : global_size 1000 local_size = 1024 := global_size_eq 1000 (by norm_num)
  rw [dispatches_main, h]
  simp [local_size, WG_SIZE]

/-- C3 (evaluation at the failing input): in the program as written (`ARRAY_SIZE = 1000`,
8-byte pointers) both device buffers hold one `float`, so after the readback the host array
`output` has 1000 cells of which only `output[0] = 0` was produced by the kernel;
`output[1]` and `output[999]` are still indeterminate, and an indeterminate value is what
the print loop hands to `printf` for element 999. -/
theorem C3_output_after_readback :
    (main 8 1000).output.length = 1000 ∧
      (main 8 1000).mem Handle.out_buffer = [some 0] ∧
      (main 8 1000).output.getD 0 none = some 0 ∧
      (main 8 1000).output.getD 1 none = none ∧
      (main 8 1000).output.getD 999 none = none ∧
      (main 8 1000).stdout.getD 999 none = none := by
  have hg : 0 < global_size 1000 local_size := by
    rw [show global_size 1000 local_size = 1024 from global_size_eq 1000 (by norm_num)]
    norm_num
  have hs : (main 8 1000).stdout.getD 999 none = (main 8 1000).output.getD 999 none := by
    rw [main_stdout, List.getD_eq_getElem?_getD, List.getElem?_map,
      List.getElem?_range (by norm_num)]
    simp only [Option.map_some', Option.getD_some]
  refine ⟨?_, main_mem_out_buffer_eq 8 1000 (by norm_num) hg,
    main_output_zero 8 1000 (by norm_num [sizeof_float]) (by norm_num) hg,
    main_output_indeterminate 8 1000 1 (by norm_num), main_output_indeterminate 8 1000 999 (by norm_num), ?_⟩
  · rw [main_output_length]; norm_num [sizeof_float]
  · rw [hs]; exact main_output_indeterminate 8 1000 999 (by norm_num)

/-- C4 (evaluation at the failing input): in the program as written (`ARRAY_SIZE = 1000`,
8-byte pointers) both `clCreateBuffer` calls pass 4 bytes (`sizeof(float)`) and the readback
passes 8 bytes (`sizeof(output)`, a pointer), while the element count bound as the third
kernel argument is 1000, for which `N * sizeof(float)` is 4000. -/
theorem C4_byte_sizes_at_1000 :
    bufferSizes (main 8 1000).trace = [4, 4] ∧
      readbackSizes (main 8 1000).trace = [8] ∧
      kernelArgs (main 8 1000).trace =
        [(0, 8, .mem .input_buffer), (1, 8, .mem .out_buffer), (2, 4, .int 1000)] ∧
      1000 * sizeof_float = 4000 := by
  rw [bufferSizes_main, readbackSizes_main, kernelArgs_main]
  simp [sizeof_float, sizeof_int]

/-- C5 (counterexample): in the program as written the sequence of released objects is not
the reverse of the sequence of created objects, and the command queue, created after the
output buffer, is released after it. -/
theorem C5_release_is_not_reverse_of_creation :
    releasedSeq (main 8 1000).trace ≠ (createdSeq (main 8 1000).trace).reverse ∧
      List.indexOf Handle.out_buffer (createdSeq (main 8 1000).trace) <
        List.indexOf Handle.queue (createdSeq (main 8 1000).trace) ∧
      List.indexOf Handle.out_buffer (releasedSeq (main 8 1000).trace) <
        List.indexOf Handle.queue (releasedSeq (main 8 1000).trace) := by
  rw [createdSeq_main, releasedSeq_main]
  decide

/-- C5 (amended): the objects are created in the order context, program, input buffer, output
buffer, queue, kernel and released in the order kernel, output buffer, input buffer, queue,
program, context, which is the reverse of the creation order with the queue moved in front
of the two buffers.  Every object is released before any object created earlier than it,
except that the queue is released after the two buffers. -/
theorem C5_release_order (ptr N : ℕ) :
    createdSeq (main ptr N).trace =
        [.context, .program, .input_buffer, .out_buffer, .queue, .kernel] ∧
      releasedSeq (main ptr N).trace =
        ([.context, .program, .queue, .input_buffer, .out_buffer, .kernel] :
          List Handle).reverse ∧
      ∀ a b : Handle, a ∈ createdSeq (main ptr N).trace → b ∈ createdSeq (main ptr N).trace →
        List.indexOf a (createdSeq (main ptr N).trace) <
          List.indexOf b (createdSeq (main ptr N).trace) →
        ¬ (b = .queue ∧ (a = .input_buffer ∨ a = .out_buffer)) →
        List.indexOf b (releasedSeq (main ptr N).trace) <
          List.indexOf a (releasedSeq (main ptr N).trace) := by
  rw [createdSeq_main, releasedSeq_main]
  refine ⟨rfl, rfl, ?_⟩
  decide

/-- C5 (amended), at the program as written: the kernel, created after the context, is
released before it. -/
theorem C5_release_order_witness :
    List.indexOf Handle.kernel (releasedSeq (main 8 1000).trace) <
      List.indexOf Handle.context (releasedSeq (main 8 1000).trace) :=
  (C5_release_order 8 1000).2.2 .context .kernel
    (by rw [createdSeq_main]; decide) (by rw [createdSeq_main]; decide)
    (by rw [createdSeq_main]; decide) (by decide)


/-- C6: on every run `main` issues exactly the six release calls `clReleaseKernel(kernel)`,
`clReleaseMemObject(out_buffer)`, `clReleaseMemObject(input_buffer)`,
`clReleaseCommandQueue(queue)`, `clReleaseProgram(program)`, `clReleaseContext(context)`, in
this order; each of the six created objects is released exactly once; no call after the
release of an object passes that object again; and the release of the context is the last
call of the run. -/
theorem C6_release_completeness (ptr N : ℕ) :
    (main ptr N).trace.filter (fun c => c.released.isSome) =
        [.clReleaseKernel .kernel, .clReleaseMemObject .out_buffer,
          .clReleaseMemObject .input_buffer, .clReleaseCommandQueue .queue,
          .clReleaseProgram .program, .clReleaseContext .context] ∧
      releasedSeq (main ptr N).trace =
        [.kernel, .out_buffer, .input_buffer, .queue, .program, .context] ∧
      createdSeq (main ptr N).trace =
        [.context, .program, .input_buffer, .out_buffer, .queue, .kernel] ∧
      (∀ h ∈ createdSeq (main ptr N).trace, (releasedSeq (main ptr N).trace).count h = 1) ∧
      List.Pairwise (fun c d => ∀ h, c.released = some h → h ∉ d.uses) (main ptr N).trace ∧
      (main ptr N).trace.getLast? = some (.clReleaseContext .context) := by
  refine ⟨?_, releasedSeq_main ptr N, createdSeq_main ptr N, ?_, ?_, ?_⟩
  · rw [main_trace]; rfl
  · rw [createdSeq_main, releasedSeq_main]; decide
  · rw [main_trace]
    simp [setupCalls, releaseCalls, Call.released, Call.uses]
  · rw [main_trace]; rfl

/-- C7: with `ARRAY_SIZE = 0` the computed `global_size` is 0 and the one dispatch requests 0
work-items, so the kernel writes nothing (the device output buffer is still indeterminate);
the fill loop stores to no index and leaves the empty array, and the print loop prints
nothing: the console output is empty. -/
theorem C7_zero_elements (ptr : ℕ) :
    global_size 0 local_size = 0 ∧
      dispatches (main ptr 0).trace = [(0, local_size)] ∧
      (main ptr 0).mem Handle.out_buffer = [none] ∧
      fillLoop 0 0 (malloc (0 * sizeof_float)) [] = ([], []) ∧
      (main ptr 0).data = [] ∧
      (main ptr 0).stdout = [] := by
  have hg : global_size 0 local_size = 0 := global_size_eq 0 (by norm_num)
  have hf : fillLoop 0 0 (malloc (0 * sizeof_float)) [] = ([], []) := by
    rw [fillLoop, if_neg (by norm_num)]; rfl
  refine ⟨hg, ?_, ?_, hf, ?_, ?_⟩
  · rw [dispatches_main, hg]
  · rw [main_mem_out_buffer, hg, copyCells_one, copyCells_one]
    simp [squareKernel, malloc, show List.range 1 = [0] from rfl]
  · rw [main_data, hf]
  · rw [main_stdout]; rfl

/-- C8: for every element count `N`, the fill loop, started on the freshly allocated array,
ends with `data = [(float)0, (float)1, ..., (float)(N-1)]` (exactly `N`
written cells), where `(float)i` is `i` itself for `i < 2 ^ 24`; it stores to the indices
`0, 1, ..., N-1` in this order and to no other, that is, it makes exactly `N` iterations. -/
theorem C8_fill_loop (N : ℕ) :
    (fillLoop N 0 (malloc (N * sizeof_float)) []).1 =
        (List.range N).map (fun (i : ℕ) => some (roundFloat binary32 (i : ℚ))) ∧
      (∀ i : ℕ, i < N → i < 2 ^ 24 →
        (fillLoop N 0 (malloc (N * sizeof_float)) []).1[i]? = some (some (i : ℚ))) ∧
      (fillLoop N 0 (malloc (N * sizeof_float)) []).2 = List.range N ∧
      (fillLoop N 0 (malloc (N * sizeof_float)) []).2.length = N := by
  have hs : (fillLoop N 0 (malloc (N * sizeof_float)) []).2 = List.range N := by
    rw [fillLoop_stores N N 0 _ _ rfl, List.range_eq_range']
    simp
  refine ⟨fillLoop_data N, ?_, hs, by rw [hs, List.length_range]⟩
  intro i hi h24
  rw [fillLoop_data, List.getElem?_map, List.getElem?_range hi, Option.map_some',
    roundFloat_binary32_nat i h24.le]

/-- C9: the first ten calls of `main` contain exactly three `clSetKernelArg` calls, all on
the handle `kernel`, binding index 0 to `input_buffer`, index 1 to `out_buffer` (each passed
with `sizeof(cl_mem)`) and index 2 to the `int` value `ARRAY_SIZE` passed with size 4, in this
order; the eleventh call is the dispatch of that same `kernel` on `queue`; no binding follows
it; it is the only dispatch of the run; and the same `ARRAY_SIZE` is the length of the host
array, the argument of the `global_size` computation and the number of printed items. -/
theorem C9_kernel_argument_binding (ptr N : ℕ) :
    ((main ptr N).trace.take 10).filter Call.isSetArg =
        [.clSetKernelArg .kernel 0 ptr (.mem .input_buffer),
          .clSetKernelArg .kernel 1 ptr (.mem .out_buffer),
          .clSetKernelArg .kernel 2 4 (.int N)] ∧
      kernelArgs ((main ptr N).trace.take 10) =
        [(0, ptr, .mem .input_buffer), (1, ptr, .mem .out_buffer), (2, 4, .int N)] ∧
      (main ptr N).trace[10]? =
        some (.clEnqueueNDRangeKernel .queue .kernel 1 (global_size N local_size) local_size) ∧
      ((main ptr N).trace.drop 11).filter Call.isSetArg = [] ∧
      kernelArgs ((main ptr N).trace.drop 11) = [] ∧
      (main ptr N).trace.filter Call.isDispatch =
        [.clEnqueueNDRangeKernel .queue .kernel 1 (global_size N local_size) local_size] ∧
      dispatches (main ptr N).trace = [(global_size N local_size, local_size)] ∧
      (main ptr N).data.length = N ∧
      (main ptr N).stdout.length = N := by
  refine ⟨?_, ?_, ?_, ?_, ?_, ?_, dispatches_main ptr N, ?_, ?_⟩
  · rw [main_trace]; rfl
  · rw [main_trace]; rfl
  · rw [main_trace]; rfl
  · rw [main_trace]; rfl
  · rw [main_trace]; rfl
  · rw [main_trace]; rfl
  · rw [main_data, fillLoop_length N N 0 _ _ rfl]
    simp [malloc, sizeof_float]
  · rw [main_stdout]; simp

/-- C10: for every `N ≤ 2 ^ 24` the floating-point expression of line 92 equals the integer
round-up `((N + L - 1) / L) * L` for `L = 256`; it returns `N` itself when `N` is a multiple
of `L`; and it is monotone: a smaller element count never gets a larger `global_size`. -/
theorem C10_global_size_is_integer_round_up (N : ℕ) (hN : N ≤ 2 ^ 24) :
    global_size N local_size = roundUpInt N local_size ∧
      (local_size ∣ N → global_size N local_size = N) ∧
      ∀ M : ℕ, M ≤ N → global_size M local_size ≤ global_size N local_size := by
  have h : global_size N local_size = (N + 255) / 256 * 256 := global_size_eq N hN
  refine ⟨?_, ?_, ?_⟩
  · rw [h]; rfl
  · rintro ⟨k, rfl⟩
    rw [h]
    simp only [local_size, WG_SIZE]
    omega
  · intro M hM
    have hM' : global_size M local_size = (M + 255) / 256 * 256 :=
      global_size_eq M (le_trans hM hN)
    rw [h, hM']
    omega

/-- C10 at the element count of the program as written and at a multiple of 256. -/
theorem C10_global_size_witness :
    (global_size 1000 local_size = roundUpInt 1000 local_size ∧
      (local_size ∣ 1000 → global_size 1000 local_size = 1000) ∧
      ∀ M : ℕ, M ≤ 1000 → global_size M local_size ≤ global_size 1000 local_size) ∧
    global_size 1024 local_size = 1024 :=
  ⟨C10_global_size_is_integer_round_up 1000 (by norm_num),
    (C10_global_size_is_integer_round_up 1024 (by norm_num)).2.1 ⟨4, by rfl⟩⟩

end SquareArray
